import Mathlib

/-!
# dorik33/cloud: rate limiter and load balancer

A shallow embedding of `internal/models`, `internal/store` (the client
repository, over a table of rows), `internal/ratelimit` and
`internal/loadbalancer`, followed by the properties established of them.

Conventions.
* Go `int` is 64 bits wide; arithmetic that can leave the range is wrapped with
  `wrapInt64`.  The cursor of the server pool is a `uint64`; it is a `Nat`, and
  its atomic increment is reduced modulo `2 ^ 64`.
* A pointer that may be `nil` is an `Option`; reading a field through `nil`
  makes the call end in `Outcome.panicked`.
* What the database driver, the clock and the upstream do is not decided by the
  program: it is passed in (`Env`, `ForwardResult`).
-/

namespace Cloud

/-! ## Go runtime -/

/-- The result of running a Go function body: it returns, or the goroutine panics. -/
inductive Outcome (α : Type) where
  | returned (a : α)
  | panicked (msg : String)
deriving DecidableEq, Repr

/-- The runtime error of reading a field through a nil pointer. -/
def nilDeref : String := "invalid memory address or nil pointer dereference"

/-- The runtime error of `x % 0` on integers. -/
def divideByZero : String := "integer divide by zero"

/-- The runtime error of indexing a slice outside its length. -/
def indexOutOfRange : String := "index out of range"

/-- Two's complement wrap-around of a Go `int` (64 bits). -/
def wrapInt64 (x : Int) : Int := (x + 2 ^ 63) % 2 ^ 64 - 2 ^ 63

/-! ## internal/models -/

/-- The record `models.Client`; the three times are instants on a clock of natural numbers. -/
structure Client where
  ClientID : String
  Capacity : Int
  RatePerSec : Int
  Tokens : Int
  LastRefill : Nat
  CreatedAt : Nat
  UpdatedAt : Nat
deriving DecidableEq, Repr

/-! ## internal/store: the client repository -/

/-- The rows of the table `clients`, in the order the database scans them. -/
abbrev Table := List Client

/-- What one call of the rate limiter does not decide itself: the two clocks and
whether the driver fails the read or the write.
`now` is `time.Now()`, `dbNow` is `CURRENT_TIMESTAMP`, `readErr` and `updateErr`
are the driver error of the `SELECT ... FOR UPDATE` and of the `UPDATE`
(`none`: the statement runs). -/
structure Env where
  now : Nat
  dbNow : Nat
  readErr : Option String
  updateErr : Option String
deriving DecidableEq, Repr

/-- An environment in which every statement runs. -/
def Env.healthy (now dbNow : Nat) : Env := ⟨now, dbNow, none, none⟩

/-- The method `clientRepository.GetByIDForUpdate`: the pair `(client, err)`.
`QueryRow(...).Scan` takes the first row with the id; `pgx.ErrNoRows` gives
`(nil, nil)`, any other error `(nil, err)`.  The statement is sent through the
pool on its own, outside any transaction, so the row lock of `FOR UPDATE` ends
with the statement and no lock is part of the state. -/
def GetByIDForUpdate (readErr : Option String) (db : Table) (clientID : String) :
    Option Client × Option String :=
  match readErr with
  | some e => (none, some e)
  | none => (db.find? (fun row => row.ClientID == clientID), none)

/-- The method `clientRepository.GetAllClients`: every row, or the error of the query. -/
def GetAllClients (listErr : Option String) (db : Table) : List Client × Option String :=
  match listErr with
  | some e => ([], some e)
  | none => (db, none)

/-- The row an `UPDATE clients SET capacity, rate_per_sec, tokens, last_refill,
updated_at = CURRENT_TIMESTAMP` writes over `row`. -/
def updatedRow (dbNow : Nat) (client row : Client) : Client :=
  { row with
    Capacity := client.Capacity
    RatePerSec := client.RatePerSec
    Tokens := client.Tokens
    LastRefill := client.LastRefill
    UpdatedAt := dbNow }

/-- The method `clientRepository.Update`: the error it returns and the table afterwards.
Every row `WHERE client_id = $1` is rewritten; no such row (`pgx.ErrNoRows`) is
the error "not found"; a statement the driver fails changes nothing. -/
def Update (updateErr : Option String) (dbNow : Nat) (db : Table) (client : Client) :
    Option String × Table :=
  match updateErr with
  | some e => (some ("failed to update client " ++ client.ClientID ++ ": " ++ e), db)
  | none =>
    if db.any (fun row => row.ClientID == client.ClientID) then
      (none, db.map (fun row =>
        if row.ClientID == client.ClientID then updatedRow dbNow client row else row))
    else
      (some ("client with id " ++ client.ClientID ++ " not found"), db)

/-! ## internal/ratelimit -/

/-- The method `RateLimiter.AllowRequest`: the pair `(allowed, err)` and the table afterwards.
`client.Tokens -= 10` runs only when `client.Tokens >= 10`, where it cannot
leave the range of `int`. -/
def AllowRequest (env : Env) (db : Table) (clientID : String) :
    (Bool × Option String) × Table :=
  match GetByIDForUpdate env.readErr db clientID with
  | (_, some err) => ((false, some err), db)
  | (none, none) => ((false, none), db)
  | (some client, none) =>
    if client.Tokens < 10 then ((false, none), db)
    else
      let client := { client with Tokens := client.Tokens - 10, LastRefill := env.now }
      match Update env.updateErr env.dbNow db client with
      | (some err, db') => ((false, some err), db')
      | (none, db') => ((true, none), db')

/-- The loop of `RateLimiter.RefillAllTokens` over the enumerated `clients`,
`i` counting the iterations (iteration `i` runs in `envs i`).
The body declares `client, err := GetByIDForUpdate(ctx, client.ClientID)`: the
new `client` hides the loop variable, so both log calls that precede
`continue` read `client.ClientID` through the pointer just returned.
The error `Update` returns is dropped. -/
def refillLoop (envs : Nat → Env) : Nat → List Client → Table → Outcome Unit × Table
  | _, [], db => (.returned (), db)
  | i, rangeClient :: rest, db =>
    match GetByIDForUpdate (envs i).readErr db rangeClient.ClientID with
    | (none, some _) => (.panicked nilDeref, db)
    | (some _, some _) => refillLoop envs (i + 1) rest db
    | (none, none) => (.panicked nilDeref, db)
    | (some client, none) =>
      if client.Tokens < client.Capacity then
        let client := { client with Tokens := wrapInt64 (client.Tokens + client.RatePerSec) }
        refillLoop envs (i + 1) rest (Update (envs i).updateErr (envs i).dbNow db client).2
      else
        refillLoop envs (i + 1) rest db

/-- The method `RateLimiter.RefillAllTokens`: the error it returns (or the panic)
and the table afterwards. -/
def RefillAllTokens (listErr : Option String) (envs : Nat → Env) (db : Table) :
    Outcome (Option String) × Table :=
  match GetAllClients listErr db with
  | (_, some err) => (.returned (some err), db)
  | (clients, none) =>
    match refillLoop envs 0 clients db with
    | (.returned _, db') => (.returned none, db')
    | (.panicked msg, db') => (.panicked msg, db')

/-- One call made to the rate limiter. -/
inductive Call where
  | allow (env : Env) (clientID : String)
  | refill (listErr : Option String) (envs : Nat → Env)

/-- The table after one call. -/
def Call.run : Call → Table → Table
  | .allow env clientID, db => (AllowRequest env db clientID).2
  | .refill listErr envs, db => (RefillAllTokens listErr envs db).2

/-- The table after a finite sequence of calls, applied left to right. -/
def runCalls (calls : List Call) (db : Table) : Table :=
  calls.foldl (fun t c => c.run t) db

/-- The data-model invariant of one record: `0 <= tokens <= capacity`. -/
def tokensInRange (c : Client) : Prop := 0 ≤ c.Tokens ∧ c.Tokens ≤ c.Capacity

instance (c : Client) : Decidable (tokensInRange c) := by
  unfold tokensInRange; infer_instance

/-- The precondition on a stored record: positive capacity and rate, tokens in range. -/
def wellFormed (c : Client) : Prop :=
  0 < c.Capacity ∧ 0 < c.RatePerSec ∧ tokensInRange c

instance (c : Client) : Decidable (wellFormed c) := by
  unfold wellFormed; infer_instance

/-- A record with the given id, capacity, rate and tokens, created at instant 0. -/
def mkClient (id : String) (capacity rate tokens : Int) : Client :=
  ⟨id, capacity, rate, tokens, 0, 0, 0⟩

/-- The tokens stored for `clientID`, when it has a row. -/
def tokensOf (db : Table) (clientID : String) : Option Int :=
  (db.find? (fun row => row.ClientID == clientID)).map (fun row => row.Tokens)

/-! ## The two store steps of one admission check -/

/-- The first store step of `AllowRequest`: the read. -/
def allowRead (env : Env) (db : Table) (clientID : String) : Option Client × Option String :=
  GetByIDForUpdate env.readErr db clientID

/-- The rest of `AllowRequest` from what the read returned: the test on the
tokens and, when it passes, the second store step (the write). -/
def allowFinish (env : Env) (read : Option Client × Option String) (db : Table) :
    (Bool × Option String) × Table :=
  match read with
  | (_, some err) => ((false, some err), db)
  | (none, none) => ((false, none), db)
  | (some client, none) =>
    if client.Tokens < 10 then ((false, none), db)
    else
      let client := { client with Tokens := client.Tokens - 10, LastRefill := env.now }
      match Update env.updateErr env.dbNow db client with
      | (some err, db') => ((false, some err), db')
      | (none, db') => ((true, none), db')

/-- Where one `AllowRequest` call stands: not started, between its read and
its write (holding what it read), or returned. -/
inductive CallState where
  | ready
  | hasRead (read : Option Client × Option String)
  | finished (result : Bool × Option String)
deriving DecidableEq, Repr

/-- One step of a call on the shared table. -/
def CallState.step (env : Env) (clientID : String) : CallState → Table → CallState × Table
  | .ready, db => (.hasRead (allowRead env db clientID), db)
  | .hasRead read, db => (.finished (allowFinish env read db).1, (allowFinish env read db).2)
  | .finished result, db => (.finished result, db)

/-- Two `AllowRequest` calls for one client running against one table. -/
structure Race where
  db : Table
  first : CallState
  second : CallState
deriving DecidableEq, Repr

/-- The race after the schedule: `false` lets the first call take its next step,
`true` the second. -/
def runSchedule (envA envB : Env) (clientID : String) : List Bool → Race → Race
  | [], r => r
  | false :: rest, r =>
    runSchedule envA envB clientID rest
      ⟨(r.first.step envA clientID r.db).2, (r.first.step envA clientID r.db).1, r.second⟩
  | true :: rest, r =>
    runSchedule envA envB clientID rest
      ⟨(r.second.step envB clientID r.db).2, r.first, (r.second.step envB clientID r.db).1⟩

/-- An interleaving of the two calls: each takes its two steps. -/
def isInterleaving (sched : List Bool) : Prop :=
  sched.count false = 2 ∧ sched.count true = 2

instance (sched : List Bool) : Decidable (isInterleaving sched) := by
  unfold isInterleaving; infer_instance

/-- Whether a call has returned `allowed = true`. -/
def CallState.allowed : CallState → Bool
  | .finished (true, _) => true
  | _ => false

/-! ## internal/loadbalancer -/

/-- The record `Backend`: its address and its liveness flag (the reverse proxy
is bound to the address). -/
structure Backend where
  URL : String
  Alive : Bool
deriving DecidableEq, Repr

/-- The method `Backend.IsAlive`. -/
def Backend.IsAlive (b : Backend) : Bool := b.Alive

/-- The record `ServerPool`: the backends and the `uint64` cursor. -/
structure ServerPool where
  backends : List Backend
  currentBackend : Nat
deriving DecidableEq, Repr

/-- The function `NewServerPool`: no backend, the cursor 0. -/
def NewServerPool : ServerPool := ⟨[], 0⟩

/-- The method `ServerPool.AddBackend`: the backend is appended, alive. -/
def ServerPool.AddBackend (s : ServerPool) (url : String) : ServerPool :=
  { s with backends := s.backends ++ [⟨url, true⟩] }

/-- The pool `main` builds: `NewServerPool`, then `AddBackend` for each
configured address in turn. -/
def poolOf (urls : List String) : ServerPool :=
  urls.foldl ServerPool.AddBackend NewServerPool

/-- The method `ServerPool.NextIndex`: `atomic.AddUint64(&currentBackend, 1) % len(backends)`,
the index and the pool with the advanced cursor. -/
def NextIndex (s : ServerPool) : Outcome (Nat × ServerPool) :=
  let c := (s.currentBackend + 1) % 2 ^ 64
  if s.backends.length = 0 then .panicked divideByZero
  else .returned (c % s.backends.length, { s with currentBackend := c })

/-- The loop of `GetNextBackend` over the values `i` takes: the index of the
backend returned (`none` for `nil`) and the pool afterwards.  The conversion
`uint64(idx)` is exact, `idx` being an `int` that is not negative. -/
def scanBackends (s : ServerPool) (next : Nat) : List Nat → Outcome (Option Nat × ServerPool)
  | [] => .returned (none, s)
  | i :: rest =>
    let idx := i % s.backends.length
    match s.backends[idx]? with
    | none => .panicked indexOutOfRange
    | some b =>
      if b.IsAlive then
        .returned (some idx, if i ≠ next then { s with currentBackend := idx } else s)
      else scanBackends s next rest

/-- The method `ServerPool.GetNextBackend`.  `for i := next; i < len + next; i++`
runs `i` through `next, next + 1, ..., next + len - 1`. -/
def GetNextBackend (s : ServerPool) : Outcome (Option Nat × ServerPool) :=
  match NextIndex s with
  | .panicked msg => .panicked msg
  | .returned (next, s') => scanBackends s' next (List.range' next s'.backends.length)

/-- What reaches `LoadBalance` of a request: the `client_id` query parameter
(`""` when absent) and the value stored in its context under `attemptsKey`
when that is an `int`. -/
structure Request where
  clientID : String
  attempts : Option Int
deriving DecidableEq, Repr

/-- The function `GetAttemptsFromContext`. -/
def GetAttemptsFromContext (r : Request) : Int :=
  match r.attempts with
  | some attempts => attempts
  | none => 0

/-- What forwarding to a backend comes to: the upstream answers with a status,
or the round trip fails. -/
inductive ForwardResult where
  | answered (status : Nat)
  | failed
deriving DecidableEq, Repr

/-- The status `ReverseProxy.ServeHTTP` writes.  The proxy is the one
`httputil.NewSingleHostReverseProxy` builds, no `ErrorHandler` is set on it, and
the library's default handler answers a failed round trip with 502. -/
def ServeHTTP : ForwardResult → Nat
  | .answered status => status
  | .failed => 502

/-- What the caller observes: the status written and the backends (by index)
the request was handed to, in order. -/
structure Response where
  status : Nat
  forwardedTo : List Nat
deriving DecidableEq, Repr

/-- The state `LoadBalance` works on: the pool and the table behind the rate limiter. -/
structure Gateway where
  pool : ServerPool
  db : Table
deriving DecidableEq, Repr

/-- The second half of `LoadBalance`, from `attempts := GetAttemptsFromContext(r)` on. -/
def dispatch (upstream : Nat → ForwardResult) (g : Gateway) (r : Request) :
    Outcome (Response × Gateway) :=
  if GetAttemptsFromContext r > 3 then .returned (⟨503, []⟩, g)
  else
    match GetNextBackend g.pool with
    | .panicked msg => .panicked msg
    | .returned (none, pool') => .returned (⟨503, []⟩, { g with pool := pool' })
    | .returned (some idx, pool') =>
      .returned (⟨ServeHTTP (upstream idx), [idx]⟩, { g with pool := pool' })

/-- The method `ServerPool.LoadBalance`; `upstream idx` is what forwarding this
request to backend `idx` comes to. -/
def LoadBalance (env : Env) (upstream : Nat → ForwardResult) (g : Gateway) (r : Request) :
    Outcome (Response × Gateway) :=
  if r.clientID ≠ "" then
    match AllowRequest env g.db r.clientID with
    | ((_, some _), db') => .returned (⟨500, []⟩, { g with db := db' })
    | ((false, none), db') => .returned (⟨429, []⟩, { g with db := db' })
    | ((true, none), db') => dispatch upstream { g with db := db' } r
  else dispatch upstream g r

/-- The pool after `m` sequential `GetNextBackend` calls. -/
def poolAfter : Nat → ServerPool → ServerPool
  | 0, s => s
  | m + 1, s =>
    match GetNextBackend (poolAfter m s) with
    | .panicked _ => poolAfter m s
    | .returned (_, s') => s'

/-- The index returned by the call made after `m` earlier sequential calls. -/
def nthResult (m : Nat) (s : ServerPool) : Option Nat :=
  match GetNextBackend (poolAfter m s) with
  | .panicked _ => none
  | .returned (r, _) => r

/-- What the first `m` sequential `GetNextBackend` calls on a pool return. -/
def callSequence (m : Nat) (s : ServerPool) : List (Option Nat) :=
  (List.range m).map (fun j => nthResult j s)

/-- Whether the backend at `idx` exists and is alive. -/
def aliveAt (s : ServerPool) (idx : Nat) : Bool :=
  match s.backends[idx]? with
  | some b => b.IsAlive
  | none => false

/-- The index `idx` is the first one in the cyclic order `k, k + 1, ..., k + n - 1`
(mod `n`, the number of backends) whose backend is alive. -/
def IsFirstAliveFrom (s : ServerPool) (k idx : Nat) : Prop :=
  ∃ j, j < s.backends.length ∧ idx = (k + j) % s.backends.length ∧ aliveAt s idx = true ∧
    ∀ j', j' < j → aliveAt s ((k + j') % s.backends.length) = false

instance (s : ServerPool) (k idx : Nat) : Decidable (IsFirstAliveFrom s k idx) := by
  unfold IsFirstAliveFrom; infer_instance

/-! ## Properties of the client repository -/

/-- A row found by id carries that id. -/
theorem find_clientID {db : Table} {clientID : String} {client : Client}
    (h : db.find? (fun row => row.ClientID == clientID) = some client) :
    client.ClientID = clientID := by
  have := List.find?_some h
  simpa using this

/-- A row found by id is a row of the table. -/
theorem any_of_find {db : Table} {clientID : String} {client : Client}
    (h : db.find? (fun row => row.ClientID == clientID) = some client) :
    db.any (fun row => row.ClientID == clientID) = true := by
  rw [List.any_eq_true]
  exact ⟨client, List.mem_of_find?_eq_some h, by simpa using find_clientID h⟩

/-- Looking a row up in a mapped list, when the map does not change what the
lookup tests. -/
theorem find_map_of_comm {α : Type} (p : α → Bool) (g : α → α) (h : ∀ x, p (g x) = p x)
    (l : List α) : (l.map g).find? p = (l.find? p).map g := by
  induction l with
  | nil => rfl
  | cons x xs ih =>
    simp only [List.map_cons, List.find?_cons, h]
    cases p x
    · simpa using ih
    · rfl

/-- Reading a table back after every row with id `target` went through `f`,
where `f` keeps the id of a row. -/
theorem find_map_rewrite (f : Client → Client) (hf : ∀ row, (f row).ClientID = row.ClientID)
    (target clientID : String) (db : Table) :
    (db.map (fun row => if row.ClientID == target then f row else row)).find?
        (fun row => row.ClientID == clientID) =
      (db.find? (fun row => row.ClientID == clientID)).map
        (fun row => if row.ClientID == target then f row else row) := by
  apply find_map_of_comm
  intro row
  by_cases ht : row.ClientID = target
  · subst ht
    simp [hf]
  · simp [ht]

/-- The row `updatedRow` writes keeps the id of the row it overwrites. -/
theorem updatedRow_clientID (dbNow : Nat) (client row : Client) :
    (updatedRow dbNow client row).ClientID = row.ClientID := rfl

/-- `Update` with a healthy driver on a client that has a row: no error, and
reading any id back gives the old row, overwritten when it is the client's. -/
theorem Update_found (dbNow : Nat) (db : Table) (client : Client)
    (h : db.any (fun row => row.ClientID == client.ClientID) = true) (clientID : String) :
    (Update none dbNow db client).1 = none ∧
    (Update none dbNow db client).2.find? (fun row => row.ClientID == clientID) =
      (db.find? (fun row => row.ClientID == clientID)).map
        (fun row => if row.ClientID == client.ClientID then updatedRow dbNow client row else row) := by
  simp only [Update, h, if_true, true_and]
  exact find_map_rewrite (updatedRow dbNow client) (updatedRow_clientID dbNow client) _ _ db

/-! ## The rate limiter -/

/-- C1 (the code breaks it): one `RefillAllTokens` on a store whose only client
is well formed (capacity 30, rate 20, tokens 25) leaves that client 45 tokens,
above its capacity. -/
theorem refill_exceeds_capacity :
    (∀ c ∈ [mkClient "a" 30 20 25], wellFormed c) ∧
    tokensOf (runCalls [.refill none (fun _ => Env.healthy 1 1)] [mkClient "a" 30 20 25]) "a"
      = some 45 ∧
    ¬ ∀ c ∈ runCalls [.refill none (fun _ => Env.healthy 1 1)] [mkClient "a" 30 20 25],
        tokensInRange c := by
  decide

/-- C2: for a client that has a row, with the read and the write not failed by
the driver, `AllowRequest` answers `(true, nil)` exactly when the tokens are at
least 10; it then stores `tokens - 10` (with the stamp of the call, capacity and
rate as they were), and below 10 it answers `(false, nil)` on an unchanged table. -/
theorem AllowRequest_charges_ten (env : Env) (db : Table) (clientID : String) (client : Client)
    (hread : env.readErr = none) (hupd : env.updateErr = none)
    (hfound : db.find? (fun row => row.ClientID == clientID) = some client) :
    ((AllowRequest env db clientID).1 = (true, none) ↔ 10 ≤ client.Tokens) ∧
    (10 ≤ client.Tokens →
      GetByIDForUpdate none (AllowRequest env db clientID).2 clientID =
        (some { client with
                Tokens := client.Tokens - 10, LastRefill := env.now, UpdatedAt := env.dbNow },
         none)) ∧
    (client.Tokens < 10 → AllowRequest env db clientID = ((false, none), db)) := by
  have hid := find_clientID hfound
  have hany := any_of_find hfound
  by_cases h : client.Tokens < 10
  · have hA : AllowRequest env db clientID = ((false, none), db) := by
      simp [AllowRequest, GetByIDForUpdate, hread, hfound, h]
    refine ⟨?_, fun h10 => absurd h10 (by omega), fun _ => hA⟩
    rw [hA]
    constructor
    · intro hc; simp at hc
    · intro h10; omega
  · have hU := Update_found env.dbNow db
        { client with Tokens := client.Tokens - 10, LastRefill := env.now }
        (by simpa [hid] using hany) clientID
    have hA : AllowRequest env db clientID =
        ((true, none), (Update none env.dbNow db
          { client with Tokens := client.Tokens - 10, LastRefill := env.now }).2) := by
      simp only [AllowRequest, GetByIDForUpdate, hread, hfound, h, if_false, hupd]
      rcases hres : Update none env.dbNow db
        { client with Tokens := client.Tokens - 10, LastRefill := env.now } with ⟨e, db'⟩
      rw [hres] at hU
      have he : e = none := hU.1
      subst he
      rfl
    refine ⟨?_, fun _ => ?_, fun hlt => absurd hlt h⟩
    · rw [hA]
      constructor
      · intro _; omega
      · intro _; rfl
    · rw [hA]
      simp only [GetByIDForUpdate]
      rw [hU.2, hfound]
      simp [updatedRow]

/-- The witness of C2: tokens 25 of capacity 30 are spent as allowed (15 left),
allowed (5 left), denied (still 5). -/
theorem AllowRequest_charges_ten_witness :
    (((AllowRequest (Env.healthy 7 8) [mkClient "a" 30 20 25] "a").1 = (true, none) ↔
        (10 : Int) ≤ (mkClient "a" 30 20 25).Tokens) ∧
      ((10 : Int) ≤ (mkClient "a" 30 20 25).Tokens →
        GetByIDForUpdate none (AllowRequest (Env.healthy 7 8) [mkClient "a" 30 20 25] "a").2 "a" =
          (some { mkClient "a" 30 20 25 with Tokens := 25 - 10, LastRefill := 7, UpdatedAt := 8 },
           none)) ∧
      ((mkClient "a" 30 20 25).Tokens < 10 →
        AllowRequest (Env.healthy 7 8) [mkClient "a" 30 20 25] "a" =
          ((false, none), [mkClient "a" 30 20 25]))) ∧
    AllowRequest (Env.healthy 7 8) [mkClient "a" 30 20 25] "a" =
      ((true, none), [⟨"a", 30, 20, 15, 7, 0, 8⟩]) ∧
    AllowRequest (Env.healthy 9 9) [⟨"a", 30, 20, 15, 7, 0, 8⟩] "a" =
      ((true, none), [⟨"a", 30, 20, 5, 9, 0, 9⟩]) ∧
    AllowRequest (Env.healthy 11 11) [⟨"a", 30, 20, 5, 9, 0, 9⟩] "a" =
      ((false, none), [⟨"a", 30, 20, 5, 9, 0, 9⟩]) :=
  ⟨AllowRequest_charges_ten (Env.healthy 7 8) [mkClient "a" 30 20 25] "a" (mkClient "a" 30 20 25)
      rfl rfl (by decide),
    by decide, by decide, by decide⟩

/-- C3 (the code breaks it): refilling a client of capacity 30 and rate 20 from
5 tokens stores 25, and refilling it again stores 45, not 30; both calls return
no error. -/
theorem refill_twice_from_five :
    RefillAllTokens none (fun _ => Env.healthy 1 1) [mkClient "a" 30 20 5] =
      (.returned none, [⟨"a", 30, 20, 25, 0, 0, 1⟩]) ∧
    RefillAllTokens none (fun _ => Env.healthy 2 2) [⟨"a", 30, 20, 25, 0, 0, 1⟩] =
      (.returned none, [⟨"a", 30, 20, 45, 0, 0, 2⟩]) ∧
    ¬ ((45 : Int) = min 30 (25 + 20)) := by
  decide

/-- The two store steps of an admission check, run back to back, are `AllowRequest`. -/
theorem allowFinish_allowRead (env : Env) (db : Table) (clientID : String) :
    allowFinish env (allowRead env db clientID) db = AllowRequest env db clientID := rfl

/-- C7 (the code breaks it): a client with 15 tokens, enough for one admission,
and two calls whose reads both come before either write: both return
`allowed = true`, and the table ends with 5 tokens.  (Run one after the other,
the first call is allowed and the second denied.) -/
theorem concurrent_allow_double_spend :
    isInterleaving [false, true, false, true] ∧
    runSchedule (Env.healthy 1 1) (Env.healthy 2 2) "a" [false, true, false, true]
        ⟨[mkClient "a" 30 20 15], .ready, .ready⟩ =
      ⟨[⟨"a", 30, 20, 5, 2, 0, 2⟩], .finished (true, none), .finished (true, none)⟩ ∧
    (runSchedule (Env.healthy 1 1) (Env.healthy 2 2) "a" [false, true, false, true]
        ⟨[mkClient "a" 30 20 15], .ready, .ready⟩).first.allowed = true ∧
    (runSchedule (Env.healthy 1 1) (Env.healthy 2 2) "a" [false, true, false, true]
        ⟨[mkClient "a" 30 20 15], .ready, .ready⟩).second.allowed = true ∧
    runSchedule (Env.healthy 1 1) (Env.healthy 2 2) "a" [false, false, true, true]
        ⟨[mkClient "a" 30 20 15], .ready, .ready⟩ =
      ⟨[⟨"a", 30, 20, 5, 1, 0, 1⟩], .finished (true, none), .finished (false, none)⟩ := by
  decide

/-- C8: for a client id with no row, and a read the driver does not fail,
`AllowRequest` answers `(false, nil)` and the table is as it was. -/
theorem AllowRequest_unknown_client (env : Env) (db : Table) (clientID : String)
    (hread : env.readErr = none) (habsent : ∀ row ∈ db, row.ClientID ≠ clientID) :
    AllowRequest env db clientID = ((false, none), db) := by
  have hnone : db.find? (fun row => row.ClientID == clientID) = none := by
    rw [List.find?_eq_none]
    intro row hrow
    simpa using habsent row hrow
  simp [AllowRequest, GetByIDForUpdate, hread, hnone]

/-- The witness of C8: asking for "ghost" in a store that holds only "a". -/
theorem AllowRequest_unknown_client_witness :
    AllowRequest (Env.healthy 3 3) [mkClient "a" 30 20 25] "ghost" =
      ((false, none), [mkClient "a" 30 20 25]) :=
  AllowRequest_unknown_client (Env.healthy 3 3) [mkClient "a" 30 20 25] "ghost" rfl (by decide)

/-- The refill loop panics at the first enumerated client whose re-read returns
no record, whatever clients follow it. -/
theorem refillLoop_panics_of_nil (envs : Nat → Env) (i : Nat) (c : Client) (rest : List Client)
    (db : Table) (h : (GetByIDForUpdate (envs i).readErr db c.ClientID).1 = none) :
    refillLoop envs i (c :: rest) db = (.panicked nilDeref, db) := by
  rcases hres : GetByIDForUpdate (envs i).readErr db c.ClientID with ⟨client, err⟩
  rw [hres] at h
  simp only at h
  subst h
  cases err <;> simp [refillLoop, hres]

/-- C9 (the code breaks it): with clients "a" and "b" enumerated, a re-read of
"a" that the driver fails, or that finds "a" gone, ends `RefillAllTokens` in a
nil-pointer panic, and "b" keeps its 5 tokens. -/
theorem refill_panics_on_failed_reread :
    RefillAllTokens none
        (fun i => if i = 0 then ⟨1, 1, some "connection reset", none⟩ else Env.healthy 1 1)
        [mkClient "a" 30 20 5, mkClient "b" 30 20 5] =
      (.panicked nilDeref, [mkClient "a" 30 20 5, mkClient "b" 30 20 5]) ∧
    refillLoop (fun _ => Env.healthy 1 1) 0 [mkClient "a" 30 20 5, mkClient "b" 30 20 5]
        [mkClient "b" 30 20 5] =
      (.panicked nilDeref, [mkClient "b" 30 20 5]) := by
  decide

/-! ## The server pool -/

/-- An index at which a backend is alive lies inside the pool. -/
theorem aliveAt_lt {s : ServerPool} {idx : Nat} (h : aliveAt s idx = true) :
    idx < s.backends.length := by
  unfold aliveAt at h
  cases hb : s.backends[idx]? with
  | none => rw [hb] at h; simp at h
  | some b =>
    by_contra hlt
    rw [List.getElem?_eq_none (by omega)] at hb
    simp at hb

/-- A backend alive at some index is an alive backend of the pool. -/
theorem aliveAt_mem {s : ServerPool} {idx : Nat} (h : aliveAt s idx = true) :
    ∃ b ∈ s.backends, b.Alive = true := by
  unfold aliveAt at h
  cases hb : s.backends[idx]? with
  | none => rw [hb] at h; simp at h
  | some b =>
    rw [hb] at h
    exact ⟨b, List.getElem?_mem hb, h⟩

/-- Every index of the pool is met by the cyclic order that starts at `k`. -/
theorem exists_offset (n k idx : Nat) (h : idx < n) : ∃ j, j < n ∧ (k + j) % n = idx := by
  have hk : k % n < n := Nat.mod_lt _ (by omega)
  refine ⟨(idx + n - k % n) % n, Nat.mod_lt _ (by omega), ?_⟩
  rw [Nat.add_mod_mod]
  have hsum : k + (idx + n - k % n) = n * (k / n + 1) + idx := by
    have hdiv := Nat.div_add_mod k n
    rw [Nat.mul_add, Nat.mul_one]
    omega
  rw [hsum, Nat.mul_add_mod, Nat.mod_eq_of_lt h]

/-- What the loop of `GetNextBackend` does on `i, i + 1, ..., i + m - 1`: every
backend met is dead and it returns `nil` with the pool as it was, or it returns
the first alive one met, storing its index in the cursor unless it was met at `next`. -/
theorem scanBackends_range (s : ServerPool) (next : Nat) (hn : 0 < s.backends.length) :
    ∀ m i : Nat,
      ((∀ j, j < m → aliveAt s ((i + j) % s.backends.length) = false) ∧
        scanBackends s next (List.range' i m) = .returned (none, s)) ∨
      ∃ j, j < m ∧ aliveAt s ((i + j) % s.backends.length) = true ∧
        (∀ j', j' < j → aliveAt s ((i + j') % s.backends.length) = false) ∧
        scanBackends s next (List.range' i m) =
          .returned (some ((i + j) % s.backends.length),
            if i + j ≠ next then
              { s with currentBackend := (i + j) % s.backends.length }
            else s) := by
  intro m
  induction m with
  | zero =>
    intro i
    left
    exact ⟨fun j hj => (Nat.not_lt_zero _ hj).elim, rfl⟩
  | succ m ih =>
    intro i
    have hlt : i % s.backends.length < s.backends.length := Nat.mod_lt _ hn
    cases hb : s.backends[i % s.backends.length]? with
    | none =>
      rw [List.getElem?_eq_none_iff] at hb
      omega
    | some b =>
      have hal : aliveAt s (i % s.backends.length) = b.IsAlive := by
        simp [aliveAt, hb]
      cases hlive : b.IsAlive with
      | true =>
        right
        refine ⟨0, Nat.succ_pos m, by simpa [hlive] using hal, fun j' hj' => (Nat.not_lt_zero _ hj').elim, ?_⟩
        simp [List.range'_succ, scanBackends, hb, hlive]
      | false =>
        have hstep : scanBackends s next (List.range' i (m + 1)) =
            scanBackends s next (List.range' (i + 1) m) := by
          simp [List.range'_succ, scanBackends, hb, hlive]
        have hdead : ∀ j,
            (∀ j', j' < j - 1 → aliveAt s ((i + 1 + j') % s.backends.length) = false) →
            ∀ j', j' < j → aliveAt s ((i + j') % s.backends.length) = false := by
          intro j hrest j' hj'
          cases j' with
          | zero => simpa [hlive] using hal
          | succ j'' =>
            have := hrest j'' (by omega)
            rwa [show i + 1 + j'' = i + (j'' + 1) by omega] at this
        rcases ih (i + 1) with ⟨hall, hscan⟩ | ⟨j, hj, hj1, hj2, hscan⟩
        · left
          refine ⟨?_, by rw [hstep, hscan]⟩
          exact hdead (m + 1) (fun j' hj' => hall j' (by omega))
        · right
          refine ⟨j + 1, by omega, ?_, ?_, ?_⟩
          · rwa [show i + (j + 1) = i + 1 + j by omega]
          · exact hdead (j + 1) (fun j' hj' => hj2 j' (by omega))
          · rw [hstep, hscan, show i + (j + 1) = i + 1 + j by omega]

/-- What `GetNextBackend` does on a pool with a backend: with `k` the index
`NextIndex` computes, every backend is dead and it returns `nil`, or it returns
the first alive backend in the cyclic order from `k`. -/
theorem GetNextBackend_scan (s : ServerPool) (hn : 0 < s.backends.length) :
    ((∀ j, j < s.backends.length →
        aliveAt s (((s.currentBackend + 1) % 2 ^ 64 % s.backends.length + j)
          % s.backends.length) = false) ∧
      GetNextBackend s =
        .returned (none, { s with currentBackend := (s.currentBackend + 1) % 2 ^ 64 })) ∨
    ∃ j, j < s.backends.length ∧
      aliveAt s (((s.currentBackend + 1) % 2 ^ 64 % s.backends.length + j)
        % s.backends.length) = true ∧
      (∀ j', j' < j →
        aliveAt s (((s.currentBackend + 1) % 2 ^ 64 % s.backends.length + j')
          % s.backends.length) = false) ∧
      GetNextBackend s =
        .returned (some (((s.currentBackend + 1) % 2 ^ 64 % s.backends.length + j)
            % s.backends.length),
          if j ≠ 0 then
            { s with currentBackend :=
                ((s.currentBackend + 1) % 2 ^ 64 % s.backends.length + j)
                  % s.backends.length }
          else { s with currentBackend := (s.currentBackend + 1) % 2 ^ 64 }) := by
  have hne : ¬ s.backends.length = 0 := by omega
  have hG : GetNextBackend s =
      scanBackends { s with currentBackend := (s.currentBackend + 1) % 2 ^ 64 }
        ((s.currentBackend + 1) % 2 ^ 64 % s.backends.length)
        (List.range' ((s.currentBackend + 1) % 2 ^ 64 % s.backends.length)
          s.backends.length) := by
    simp [GetNextBackend, NextIndex, hne]
  rcases scanBackends_range { s with currentBackend := (s.currentBackend + 1) % 2 ^ 64 }
      ((s.currentBackend + 1) % 2 ^ 64 % s.backends.length) hn s.backends.length
      ((s.currentBackend + 1) % 2 ^ 64 % s.backends.length)
    with ⟨hall, hscan⟩ | ⟨j, hj, hj1, hj2, hscan⟩
  · left
    exact ⟨hall, by rw [hG, hscan]⟩
  · right
    refine ⟨j, hj, hj1, hj2, ?_⟩
    rw [hG, hscan]
    by_cases hj0 : j = 0
    · simp [hj0]
    · have : (s.currentBackend + 1) % 2 ^ 64 % s.backends.length + j ≠
          (s.currentBackend + 1) % 2 ^ 64 % s.backends.length := by omega
      simp [hj0, this]

/-- Liveness at an index is read from the backends alone. -/
theorem aliveAt_congr {s t : ServerPool} (h : t.backends = s.backends) (idx : Nat) :
    aliveAt t idx = aliveAt s idx := by
  unfold aliveAt
  rw [h]

/-- Being the first alive index from `k` is read from the backends alone. -/
theorem IsFirstAliveFrom_congr {s t : ServerPool} (h : t.backends = s.backends) (k idx : Nat) :
    IsFirstAliveFrom t k idx ↔ IsFirstAliveFrom s k idx := by
  unfold IsFirstAliveFrom
  simp only [h, aliveAt_congr h]

/-- An alive backend of the pool is alive at some offset of the cyclic order from `k`. -/
theorem exists_alive_offset (s : ServerPool) (k : Nat) (b : Backend) (hb : b ∈ s.backends)
    (hlive : b.Alive = true) :
    ∃ j, j < s.backends.length ∧ aliveAt s ((k + j) % s.backends.length) = true := by
  obtain ⟨idx, hidx, hget⟩ := List.getElem_of_mem hb
  obtain ⟨j, hj, hmod⟩ := exists_offset s.backends.length k idx hidx
  refine ⟨j, hj, ?_⟩
  rw [hmod]
  simp [aliveAt, List.getElem?_eq_getElem hidx, hget, Backend.IsAlive, hlive]

/-- C4 (amended): on a pool with a backend, `GetNextBackend` returns `nil`
exactly when no backend is alive; otherwise it returns an alive backend, the
first in the cyclic order from `k`, where `k = ((c + 1) mod 2^64) mod n` is the
index `NextIndex` computes from the cursor `c`. -/
theorem GetNextBackend_first_alive (s : ServerPool) (hn : 0 < s.backends.length) :
    ∃ r s', GetNextBackend s = .returned (r, s') ∧
      NextIndex s = .returned ((s.currentBackend + 1) % 2 ^ 64 % s.backends.length,
        { s with currentBackend := (s.currentBackend + 1) % 2 ^ 64 }) ∧
      (r = none ↔ ∀ b ∈ s.backends, b.Alive = false) ∧
      ∀ idx, r = some idx → aliveAt s idx = true ∧
        IsFirstAliveFrom s ((s.currentBackend + 1) % 2 ^ 64 % s.backends.length) idx := by
  have hne : ¬ s.backends.length = 0 := by omega
  have hN : NextIndex s = .returned ((s.currentBackend + 1) % 2 ^ 64 % s.backends.length,
      { s with currentBackend := (s.currentBackend + 1) % 2 ^ 64 }) := by
    simp [NextIndex, hne]
  rcases GetNextBackend_scan s hn with ⟨hall, hG⟩ | ⟨j, hj, hj1, hj2, hG⟩
  · refine ⟨none, _, hG, hN, ?_, fun idx h => by simp at h⟩
    refine ⟨fun _ b hb => ?_, fun _ => rfl⟩
    by_contra hlive
    obtain ⟨j, hj, hal⟩ := exists_alive_offset s
      ((s.currentBackend + 1) % 2 ^ 64 % s.backends.length) b hb (by simpa using hlive)
    rw [hall j hj] at hal
    simp at hal
  · refine ⟨some _, _, hG, hN, ?_, ?_⟩
    · refine ⟨fun h => by simp at h, fun hdead => ?_⟩
      obtain ⟨b, hb, hlive⟩ := aliveAt_mem hj1
      rw [hdead b hb] at hlive
      simp at hlive
    · intro idx hidx
      simp only [Option.some.injEq] at hidx
      subst hidx
      exact ⟨hj1, j, hj, rfl, hj1, hj2⟩

/-- The witness of C4: backends #1 and #3 alive, #2 dead, cursor 0.  `NextIndex`
gives 1, the dead one, and the call returns index 2. -/
theorem GetNextBackend_first_alive_witness :
    GetNextBackend ⟨[⟨"b1", true⟩, ⟨"b2", false⟩, ⟨"b3", true⟩], 0⟩ =
      .returned (some 2, ⟨[⟨"b1", true⟩, ⟨"b2", false⟩, ⟨"b3", true⟩], 2⟩) ∧
    ∃ r s', GetNextBackend ⟨[⟨"b1", true⟩, ⟨"b2", false⟩, ⟨"b3", true⟩], 0⟩ = .returned (r, s') ∧
      NextIndex ⟨[⟨"b1", true⟩, ⟨"b2", false⟩, ⟨"b3", true⟩], 0⟩ =
        .returned ((0 + 1) % 2 ^ 64 % 3, ⟨[⟨"b1", true⟩, ⟨"b2", false⟩, ⟨"b3", true⟩], (0 + 1) % 2 ^ 64⟩) ∧
      (r = none ↔ ∀ b ∈ [(⟨"b1", true⟩ : Backend), ⟨"b2", false⟩, ⟨"b3", true⟩], b.Alive = false) ∧
      ∀ idx, r = some idx →
        aliveAt ⟨[⟨"b1", true⟩, ⟨"b2", false⟩, ⟨"b3", true⟩], 0⟩ idx = true ∧
        IsFirstAliveFrom ⟨[⟨"b1", true⟩, ⟨"b2", false⟩, ⟨"b3", true⟩], 0⟩ ((0 + 1) % 2 ^ 64 % 3) idx :=
  ⟨by decide,
    GetNextBackend_first_alive ⟨[⟨"b1", true⟩, ⟨"b2", false⟩, ⟨"b3", true⟩], 0⟩ (by decide)⟩

/-- The counterexample to C4 as stated: three alive backends and the cursor at
`2^64 - 1`.  `NextIndex` wraps the cursor to 0 and gives index 0, which the call
returns, while `(c + 1) mod 3 = 1` and the backend at index 1 is alive. -/
theorem GetNextBackend_cursor_wraps :
    NextIndex ⟨[⟨"b1", true⟩, ⟨"b2", true⟩, ⟨"b3", true⟩], 2 ^ 64 - 1⟩ =
      .returned (0, ⟨[⟨"b1", true⟩, ⟨"b2", true⟩, ⟨"b3", true⟩], 0⟩) ∧
    GetNextBackend ⟨[⟨"b1", true⟩, ⟨"b2", true⟩, ⟨"b3", true⟩], 2 ^ 64 - 1⟩ =
      .returned (some 0, ⟨[⟨"b1", true⟩, ⟨"b2", true⟩, ⟨"b3", true⟩], 0⟩) ∧
    (2 ^ 64 - 1 + 1) % 3 = 1 ∧
    IsFirstAliveFrom ⟨[⟨"b1", true⟩, ⟨"b2", true⟩, ⟨"b3", true⟩], 2 ^ 64 - 1⟩
      ((2 ^ 64 - 1 + 1) % 3) 1 ∧
    ¬ IsFirstAliveFrom ⟨[⟨"b1", true⟩, ⟨"b2", true⟩, ⟨"b3", true⟩], 2 ^ 64 - 1⟩
      ((2 ^ 64 - 1 + 1) % 3) 0 := by
  decide

/-- One `GetNextBackend` call on a pool with an alive backend: it returns an
alive backend, the first in the cyclic order from the index `NextIndex`
computes, the backends stay as they were, and the cursor it leaves is that
index modulo the number of backends. -/
theorem GetNextBackend_step (s : ServerPool) (hn : 0 < s.backends.length)
    (halive : ∃ b ∈ s.backends, b.Alive = true) :
    ∃ idx s', GetNextBackend s = .returned (some idx, s') ∧ s'.backends = s.backends ∧
      s'.currentBackend % s.backends.length = idx ∧
      s'.currentBackend ≤ max ((s.currentBackend + 1) % 2 ^ 64) (s.backends.length - 1) ∧
      aliveAt s idx = true ∧
      IsFirstAliveFrom s ((s.currentBackend + 1) % 2 ^ 64 % s.backends.length) idx := by
  rcases GetNextBackend_scan s hn with ⟨hall, _⟩ | ⟨j, hj, hj1, hj2, hG⟩
  · obtain ⟨b, hb, hlive⟩ := halive
    obtain ⟨j, hj, hal⟩ := exists_alive_offset s
      ((s.currentBackend + 1) % 2 ^ 64 % s.backends.length) b hb hlive
    rw [hall j hj] at hal
    simp at hal
  · refine ⟨_, _, hG, ?_, ?_, ?_, hj1, j, hj, rfl, hj1, hj2⟩
    · by_cases hj0 : j = 0 <;> simp [hj0]
    · by_cases hj0 : j = 0
      · simp [hj0]
      · simp only [hj0, ne_eq, not_false_eq_true, if_true]
        rw [Nat.mod_mod]
    · by_cases hj0 : j = 0
      · simp [hj0]
      · have hlt := aliveAt_lt hj1
        simp only [hj0, ne_eq, not_false_eq_true, if_true]
        omega

/-- The backends are the same after any number of sequential calls. -/
theorem poolAfter_backends (s : ServerPool) (hn : 0 < s.backends.length)
    (halive : ∃ b ∈ s.backends, b.Alive = true) :
    ∀ m, (poolAfter m s).backends = s.backends := by
  intro m
  induction m with
  | zero => rfl
  | succ m ih =>
    obtain ⟨idx, s', hG, hbs, _⟩ :=
      GetNextBackend_step (poolAfter m s) (by rw [ih]; exact hn) (by rw [ih]; exact halive)
    simp only [poolAfter, hG]
    rw [hbs, ih]

/-- The call made after `m` earlier ones returns an alive backend, the first in
the cyclic order from the index `NextIndex` computes from the cursor the earlier
calls left, and leaves a cursor that is its index modulo the number of backends. -/
theorem nthResult_step (s : ServerPool) (hn : 0 < s.backends.length)
    (halive : ∃ b ∈ s.backends, b.Alive = true) (m : Nat) :
    ∃ idx, nthResult m s = some idx ∧
      (poolAfter (m + 1) s).currentBackend % s.backends.length = idx ∧
      (poolAfter (m + 1) s).currentBackend ≤
        max (((poolAfter m s).currentBackend + 1) % 2 ^ 64) (s.backends.length - 1) ∧
      aliveAt s idx = true ∧
      IsFirstAliveFrom s
        (((poolAfter m s).currentBackend + 1) % 2 ^ 64 % s.backends.length) idx := by
  have hbs := poolAfter_backends s hn halive m
  obtain ⟨idx, s', hG, _, hcur, hle, hal, hfirst⟩ :=
    GetNextBackend_step (poolAfter m s) (by rw [hbs]; exact hn) (by rw [hbs]; exact halive)
  refine ⟨idx, ?_, ?_, ?_, ?_, ?_⟩
  · simp [nthResult, hG]
  · simp only [poolAfter, hG]
    rw [← hbs]
    exact hcur
  · simp only [poolAfter, hG]
    rw [← hbs]
    exact hle
  · rw [← aliveAt_congr hbs]
    exact hal
  · rw [← IsFirstAliveFrom_congr hbs, ← hbs]
    exact hfirst

/-- On a fresh pool the cursor after `m` sequential calls is at most `n - 1 + m`:
it does not wrap during the first `2^64 - n` calls. -/
theorem poolAfter_cursor_le (bs : List Backend) (hn : 0 < bs.length)
    (halive : ∃ b ∈ bs, b.Alive = true) :
    ∀ m, (poolAfter m ⟨bs, 0⟩).currentBackend ≤ bs.length - 1 + m := by
  intro m
  induction m with
  | zero => simp [poolAfter]
  | succ m ih =>
    obtain ⟨idx, _, _, hle, _⟩ := nthResult_step ⟨bs, 0⟩ hn halive m
    have hmod : ((poolAfter m ⟨bs, 0⟩).currentBackend + 1) % 2 ^ 64 ≤
        (poolAfter m ⟨bs, 0⟩).currentBackend + 1 := Nat.mod_le _ _
    simp only at hle
    omega

/-- C5 (amended): on a fresh pool with fixed liveness flags and an alive
backend, every sequential call returns an alive backend; the first call returns
the first alive backend from index `1 mod n`; every later call that finds the
cursor below `2^64 - 1` returns the first alive backend strictly after the one
returned before it, in cyclic index order; and the cursor is below `2^64 - 1`
at each of the first `2^64 - n` calls. -/
theorem round_robin_over_alive (bs : List Backend) (hn : 0 < bs.length)
    (halive : ∃ b ∈ bs, b.Alive = true) :
    (∀ m, ∃ idx, nthResult m ⟨bs, 0⟩ = some idx ∧ aliveAt ⟨bs, 0⟩ idx = true) ∧
    (∃ first, nthResult 0 ⟨bs, 0⟩ = some first ∧
      IsFirstAliveFrom ⟨bs, 0⟩ (1 % bs.length) first) ∧
    (∀ j, (poolAfter (j + 1) ⟨bs, 0⟩).currentBackend + 1 < 2 ^ 64 →
      ∃ prev idx, nthResult j ⟨bs, 0⟩ = some prev ∧ nthResult (j + 1) ⟨bs, 0⟩ = some idx ∧
        IsFirstAliveFrom ⟨bs, 0⟩ ((prev + 1) % bs.length) idx) ∧
    (∀ j, bs.length + j + 1 < 2 ^ 64 →
      (poolAfter (j + 1) ⟨bs, 0⟩).currentBackend + 1 < 2 ^ 64) := by
  refine ⟨fun m => ?_, ?_, fun j hwrap => ?_, fun j hj => ?_⟩
  · obtain ⟨idx, hres, _, _, hal, _⟩ := nthResult_step ⟨bs, 0⟩ hn halive m
    exact ⟨idx, hres, hal⟩
  · obtain ⟨first, hres, _, _, _, hfirst⟩ := nthResult_step ⟨bs, 0⟩ hn halive 0
    refine ⟨first, hres, ?_⟩
    have h1 : (0 + 1) % 2 ^ 64 = 1 := by norm_num
    simpa [poolAfter, h1] using hfirst
  · obtain ⟨prev, hprev, hcur, _, _, _⟩ := nthResult_step ⟨bs, 0⟩ hn halive j
    obtain ⟨idx, hidx, _, _, _, hfirst⟩ := nthResult_step ⟨bs, 0⟩ hn halive (j + 1)
    refine ⟨prev, idx, hprev, hidx, ?_⟩
    simp only at hcur hfirst
    rw [Nat.mod_eq_of_lt hwrap, ← Nat.mod_add_mod, hcur] at hfirst
    exact hfirst
  · have hle := poolAfter_cursor_le bs hn halive (j + 1)
    omega

/-- The witness of C5: three backends with #2 dead.  Six sequential calls return
#3, #1, #3, #1, #3, #1 (indices 2 and 0), never #2; the fifth call finds the
cursor at 3 and returns the first alive backend after the one the fourth returned. -/
theorem round_robin_over_alive_witness :
    callSequence 6 ⟨[⟨"b1", true⟩, ⟨"b2", false⟩, ⟨"b3", true⟩], 0⟩ =
      [some 2, some 0, some 2, some 0, some 2, some 0] ∧
    (poolAfter (3 + 1) ⟨[⟨"b1", true⟩, ⟨"b2", false⟩, ⟨"b3", true⟩], 0⟩).currentBackend = 3 ∧
    ∃ prev idx, nthResult 3 ⟨[⟨"b1", true⟩, ⟨"b2", false⟩, ⟨"b3", true⟩], 0⟩ = some prev ∧
      nthResult (3 + 1) ⟨[⟨"b1", true⟩, ⟨"b2", false⟩, ⟨"b3", true⟩], 0⟩ = some idx ∧
      IsFirstAliveFrom ⟨[⟨"b1", true⟩, ⟨"b2", false⟩, ⟨"b3", true⟩], 0⟩
        ((prev + 1) % [(⟨"b1", true⟩ : Backend), ⟨"b2", false⟩, ⟨"b3", true⟩].length) idx :=
  ⟨by decide, by decide,
    (round_robin_over_alive [⟨"b1", true⟩, ⟨"b2", false⟩, ⟨"b3", true⟩] (by decide)
      ⟨⟨"b1", true⟩, by decide, rfl⟩).2.2.1 3 (by decide)⟩

/-- In a pool whose backends are all alive, every index inside it is alive. -/
theorem aliveAt_of_all_alive (s : ServerPool) (h : ∀ b ∈ s.backends, b.Alive = true)
    (idx : Nat) (hidx : idx < s.backends.length) : aliveAt s idx = true := by
  simp only [aliveAt, List.getElem?_eq_getElem hidx, Backend.IsAlive]
  exact h _ (List.getElem_mem hidx)

/-- In a pool whose backends are all alive, `GetNextBackend` returns the backend
at the index `NextIndex` computes and only advances the cursor by one, modulo `2^64`. -/
theorem GetNextBackend_all_alive (s : ServerPool) (hn : 0 < s.backends.length)
    (h : ∀ b ∈ s.backends, b.Alive = true) :
    GetNextBackend s =
      .returned (some ((s.currentBackend + 1) % 2 ^ 64 % s.backends.length),
        { s with currentBackend := (s.currentBackend + 1) % 2 ^ 64 }) := by
  have hk : aliveAt s (((s.currentBackend + 1) % 2 ^ 64 % s.backends.length + 0)
      % s.backends.length) = true :=
    aliveAt_of_all_alive s h _ (Nat.mod_lt _ hn)
  rcases GetNextBackend_scan s hn with ⟨hall, _⟩ | ⟨j, _, _, hj2, hG⟩
  · rw [hall 0 hn] at hk
    simp at hk
  · have hj0 : j = 0 := by
      by_contra hne
      rw [hj2 0 (by omega)] at hk
      simp at hk
    subst hj0
    rw [hG]
    simp

/-- A fresh pool whose backends are all alive has, after `m` sequential calls,
the cursor `m mod 2^64`. -/
theorem poolAfter_all_alive (bs : List Backend) (hn : 0 < bs.length)
    (h : ∀ b ∈ bs, b.Alive = true) :
    ∀ m, poolAfter m ⟨bs, 0⟩ = ⟨bs, m % 2 ^ 64⟩ := by
  intro m
  induction m with
  | zero => rfl
  | succ m ih =>
    simp only [poolAfter, ih]
    rw [GetNextBackend_all_alive ⟨bs, m % 2 ^ 64⟩ hn h]
    simp

/-- On a fresh pool whose backends are all alive, the call made after `m`
earlier ones returns index `((m + 1) mod 2^64) mod n`. -/
theorem nthResult_all_alive (bs : List Backend) (hn : 0 < bs.length)
    (h : ∀ b ∈ bs, b.Alive = true) (m : Nat) :
    nthResult m ⟨bs, 0⟩ = some ((m + 1) % 2 ^ 64 % bs.length) := by
  simp only [nthResult, poolAfter_all_alive bs hn h m]
  rw [GetNextBackend_all_alive ⟨bs, m % 2 ^ 64⟩ hn h]
  simp

/-- The counterexample to C5 as stated: on a fresh pool of three alive backends
the calls number `2^64 - 1` and `2^64` both return index 0 (the cursor wraps
from `2^64 - 1` to 0 between them), while the first alive backend strictly after
index 0 is the one at index 1. -/
theorem round_robin_breaks_at_wrap :
    nthResult (2 ^ 64 - 2) ⟨[⟨"b1", true⟩, ⟨"b2", true⟩, ⟨"b3", true⟩], 0⟩ = some 0 ∧
    nthResult (2 ^ 64 - 1) ⟨[⟨"b1", true⟩, ⟨"b2", true⟩, ⟨"b3", true⟩], 0⟩ = some 0 ∧
    IsFirstAliveFrom ⟨[⟨"b1", true⟩, ⟨"b2", true⟩, ⟨"b3", true⟩], 0⟩ ((0 + 1) % 3) 1 ∧
    ¬ IsFirstAliveFrom ⟨[⟨"b1", true⟩, ⟨"b2", true⟩, ⟨"b3", true⟩], 0⟩ ((0 + 1) % 3) 0 := by
  refine ⟨?_, ?_, by decide, by decide⟩
  · rw [nthResult_all_alive _ (by decide) (by decide)]
    decide
  · rw [nthResult_all_alive _ (by decide) (by decide)]
    decide

/-! ## The routing pipeline -/

/-- C6 (the code breaks it): three alive backends and a request of client "a",
who has 25 tokens and is admitted, with no attempt counter in its context.  When
forwarding fails on backends #2 and #3 and would succeed on #1, or fails on all
of them, `LoadBalance` hands the request to backend #2 only and answers 502: no
second attempt is made and no 503 is sent. -/
theorem LoadBalance_does_not_retry :
    LoadBalance (Env.healthy 1 1) (fun idx => if idx = 0 then .answered 200 else .failed)
        ⟨poolOf ["b1", "b2", "b3"], [mkClient "a" 30 20 25]⟩ ⟨"a", none⟩ =
      .returned (⟨502, [1]⟩,
        ⟨⟨[⟨"b1", true⟩, ⟨"b2", true⟩, ⟨"b3", true⟩], 1⟩, [⟨"a", 30, 20, 15, 1, 0, 1⟩]⟩) ∧
    LoadBalance (Env.healthy 1 1) (fun _ => .failed)
        ⟨poolOf ["b1", "b2", "b3"], [mkClient "a" 30 20 25]⟩ ⟨"a", none⟩ =
      .returned (⟨502, [1]⟩,
        ⟨⟨[⟨"b1", true⟩, ⟨"b2", true⟩, ⟨"b3", true⟩], 1⟩, [⟨"a", 30, 20, 15, 1, 0, 1⟩]⟩) := by
  decide

/-- The second half of `LoadBalance` hands the request to at most one backend
and leaves the table alone. -/
theorem dispatch_forwards_at_most_once (upstream : Nat → ForwardResult) (g : Gateway)
    (r : Request) (resp : Response) (g' : Gateway)
    (h : dispatch upstream g r = .returned (resp, g')) :
    resp.forwardedTo.length ≤ 1 ∧ g'.db = g.db := by
  unfold dispatch at h
  split at h
  · simp only [Outcome.returned.injEq, Prod.mk.injEq] at h
    obtain ⟨h1, h2⟩ := h
    subst h1 h2
    simp
  · split at h
    · simp at h
    · simp only [Outcome.returned.injEq, Prod.mk.injEq] at h
      obtain ⟨h1, h2⟩ := h
      subst h1 h2
      simp
    · simp only [Outcome.returned.injEq, Prod.mk.injEq] at h
      obtain ⟨h1, h2⟩ := h
      subst h1 h2
      simp

/-- Whatever the upstream does, one `LoadBalance` call hands the request to at
most one backend. -/
theorem LoadBalance_forwards_at_most_once (env : Env) (upstream : Nat → ForwardResult)
    (g : Gateway) (r : Request) (resp : Response) (g' : Gateway)
    (h : LoadBalance env upstream g r = .returned (resp, g')) :
    resp.forwardedTo.length ≤ 1 := by
  unfold LoadBalance at h
  split at h
  · split at h
    · simp only [Outcome.returned.injEq, Prod.mk.injEq] at h
      rw [← h.1]
      simp
    · simp only [Outcome.returned.injEq, Prod.mk.injEq] at h
      rw [← h.1]
      simp
    · exact (dispatch_forwards_at_most_once upstream _ r resp g' h).1
  · exact (dispatch_forwards_at_most_once upstream _ r resp g' h).1

/-- On a pool with a backend the second half of `LoadBalance` returns, and the
table is as it was. -/
theorem dispatch_returns (upstream : Nat → ForwardResult) (g : Gateway) (r : Request)
    (hn : 0 < g.pool.backends.length) :
    ∃ resp pool', dispatch upstream g r = .returned (resp, ⟨pool', g.db⟩) := by
  unfold dispatch
  split
  · exact ⟨_, g.pool, rfl⟩
  · rcases GetNextBackend_scan g.pool hn with ⟨_, hG⟩ | ⟨j, _, _, _, hG⟩
    · rw [hG]
      exact ⟨_, _, rfl⟩
    · rw [hG]
      exact ⟨_, _, rfl⟩

/-- On a pool with a backend and none alive the second half of `LoadBalance`
answers 503 and hands the request to no backend. -/
theorem dispatch_all_dead (upstream : Nat → ForwardResult) (g : Gateway) (r : Request)
    (hn : 0 < g.pool.backends.length) (hdead : ∀ b ∈ g.pool.backends, b.Alive = false) :
    ∃ pool', dispatch upstream g r = .returned (⟨503, []⟩, ⟨pool', g.db⟩) := by
  unfold dispatch
  split
  · exact ⟨g.pool, rfl⟩
  · rcases GetNextBackend_scan g.pool hn with ⟨_, hG⟩ | ⟨j, _, hj1, _, _⟩
    · rw [hG]
      exact ⟨_, rfl⟩
    · obtain ⟨b, hb, hlive⟩ := aliveAt_mem hj1
      rw [hdead b hb] at hlive
      simp at hlive

/-- C10: on a pool with a backend, `LoadBalance` with a non-empty client id answers
500 when `AllowRequest` returns an error and 429 when it returns `(false, nil)`,
handing the request to no backend and leaving the pool (the cursor) as it was;
with an empty client id it skips admission and leaves the table as it was; and
when admission passes or is skipped and every backend is dead it answers 503,
handing the request to no backend. -/
theorem LoadBalance_rejections (env : Env) (upstream : Nat → ForwardResult) (g : Gateway)
    (r : Request) (hn : 0 < g.pool.backends.length) :
    (r.clientID ≠ "" → (AllowRequest env g.db r.clientID).1.2 ≠ none →
      LoadBalance env upstream g r =
        .returned (⟨500, []⟩, ⟨g.pool, (AllowRequest env g.db r.clientID).2⟩)) ∧
    (r.clientID ≠ "" → (AllowRequest env g.db r.clientID).1 = (false, none) →
      LoadBalance env upstream g r =
        .returned (⟨429, []⟩, ⟨g.pool, (AllowRequest env g.db r.clientID).2⟩)) ∧
    (r.clientID = "" →
      LoadBalance env upstream g r = dispatch upstream g r ∧
      ∃ resp pool', LoadBalance env upstream g r = .returned (resp, ⟨pool', g.db⟩)) ∧
    ((r.clientID = "" ∨ (AllowRequest env g.db r.clientID).1 = (true, none)) →
      (∀ b ∈ g.pool.backends, b.Alive = false) →
      ∃ g', LoadBalance env upstream g r = .returned (⟨503, []⟩, g')) := by
  refine ⟨?_, ?_, ?_, ?_⟩
  · intro hid herr
    rcases hA : AllowRequest env g.db r.clientID with ⟨⟨allowed, err⟩, db'⟩
    rw [hA] at herr
    cases err with
    | none => exact absurd rfl herr
    | some e => simp [LoadBalance, hid, hA]
  · intro hid hdenied
    rcases hA : AllowRequest env g.db r.clientID with ⟨⟨allowed, err⟩, db'⟩
    rw [hA] at hdenied
    simp only [Prod.mk.injEq] at hdenied
    obtain ⟨h1, h2⟩ := hdenied
    subst h1 h2
    simp [LoadBalance, hid, hA]
  · intro hid
    have hL : LoadBalance env upstream g r = dispatch upstream g r := by
      simp [LoadBalance, hid]
    exact ⟨hL, by rw [hL]; exact dispatch_returns upstream g r hn⟩
  · intro hpass hdead
    by_cases hid : r.clientID = ""
    · obtain ⟨pool', hD⟩ := dispatch_all_dead upstream g r hn hdead
      exact ⟨⟨pool', g.db⟩, by simp [LoadBalance, hid, hD]⟩
    · have hallowed := hpass.resolve_left hid
      rcases hA : AllowRequest env g.db r.clientID with ⟨⟨allowed, err⟩, db'⟩
      rw [hA] at hallowed
      simp only [Prod.mk.injEq] at hallowed
      obtain ⟨h1, h2⟩ := hallowed
      subst h1 h2
      obtain ⟨pool', hD⟩ := dispatch_all_dead upstream { g with db := db' } r hn hdead
      exact ⟨⟨pool', db'⟩, by simp [LoadBalance, hid, hA, hD]⟩

/-- The witness of C10: two dead backends and a table where "a" has 5 tokens.
A failed read gives 500 and a denied admission 429, both with the gateway as it
was; a request without client id gives 503; a request of "b", who has 10
tokens, is admitted and gives 503. -/
theorem LoadBalance_rejections_witness :
    LoadBalance ⟨1, 1, some "connection refused", none⟩ (fun _ => .answered 200)
        ⟨⟨[⟨"b1", false⟩, ⟨"b2", false⟩], 0⟩, [mkClient "a" 30 20 5]⟩ ⟨"a", none⟩ =
      .returned (⟨500, []⟩, ⟨⟨[⟨"b1", false⟩, ⟨"b2", false⟩], 0⟩, [mkClient "a" 30 20 5]⟩) ∧
    LoadBalance (Env.healthy 1 1) (fun _ => .answered 200)
        ⟨⟨[⟨"b1", false⟩, ⟨"b2", false⟩], 0⟩, [mkClient "a" 30 20 5]⟩ ⟨"a", none⟩ =
      .returned (⟨429, []⟩, ⟨⟨[⟨"b1", false⟩, ⟨"b2", false⟩], 0⟩, [mkClient "a" 30 20 5]⟩) ∧
    LoadBalance (Env.healthy 1 1) (fun _ => .answered 200)
        ⟨⟨[⟨"b1", false⟩, ⟨"b2", false⟩], 0⟩, [mkClient "a" 30 20 5]⟩ ⟨"", none⟩ =
      .returned (⟨503, []⟩, ⟨⟨[⟨"b1", false⟩, ⟨"b2", false⟩], 1⟩, [mkClient "a" 30 20 5]⟩) ∧
    ∃ g', LoadBalance (Env.healthy 1 1) (fun _ => .answered 200)
        ⟨⟨[⟨"b1", false⟩, ⟨"b2", false⟩], 0⟩, [mkClient "b" 30 20 10]⟩ ⟨"b", none⟩ =
      .returned (⟨503, []⟩, g') :=
  ⟨(LoadBalance_rejections ⟨1, 1, some "connection refused", none⟩ (fun _ => .answered 200)
      ⟨⟨[⟨"b1", false⟩, ⟨"b2", false⟩], 0⟩, [mkClient "a" 30 20 5]⟩ ⟨"a", none⟩
      (by decide)).1 (by decide) (by decide),
    by decide, by decide,
    (LoadBalance_rejections (Env.healthy 1 1) (fun _ => .answered 200)
      ⟨⟨[⟨"b1", false⟩, ⟨"b2", false⟩], 0⟩, [mkClient "b" 30 20 10]⟩ ⟨"b", none⟩
      (by decide)).2.2.2 (Or.inr (by decide)) (by decide)⟩

/-- C11 (the code breaks it): on a pool with no backend, whatever the cursor,
`NextIndex` panics on its modulo by `len(backends) = 0`, so `GetNextBackend`
does not return `nil`; `LoadBalance` on the pool `main` builds from an empty
list of addresses ends in that panic and answers no 503. -/
theorem GetNextBackend_empty_pool_panics :
    (∀ c, NextIndex ⟨[], c⟩ = .panicked divideByZero) ∧
    (∀ c, GetNextBackend ⟨[], c⟩ = .panicked divideByZero) ∧
    poolOf [] = NewServerPool ∧
    GetNextBackend NewServerPool = .panicked divideByZero ∧
    LoadBalance (Env.healthy 1 1) (fun _ => .answered 200) ⟨poolOf [], []⟩ ⟨"", none⟩ =
      .panicked divideByZero ∧
    LoadBalance (Env.healthy 1 1) (fun _ => .answered 200)
        ⟨poolOf [], [mkClient "a" 30 20 25]⟩ ⟨"a", none⟩ =
      .panicked divideByZero := by
  refine ⟨fun c => ?_, fun c => ?_, rfl, by decide, by decide, by decide⟩
  · simp [NextIndex]
  · simp [GetNextBackend, NextIndex]

end Cloud
